import Mathlib

/-!
# Lectores–Escritores (readers_writers.c)

A shallow embedding of `src/Codigo/Lectores-Escritores/readers_writers.c`.

* Each thread body (`lector`, `escritor`) is a small-step machine whose control
  points are named after the source line that the thread executes next.
* The globals of the C file are the fields of `Shared`.
* POSIX semaphores are counters: `sem_wait` can only be taken when the value is
  positive and decrements it, `sem_post` increments it.  POSIX does not fix
  which waiter is served, so every thread whose `sem_wait` is possible may be
  the next one to move.  `pthread_mutex_t` is a flag (`true` = locked).
* `int` globals are mathematical integers; the thread counts of a run are far
  below the range of `int`, so no arithmetic wraps.
* A thread that has been created but has not run yet cannot be told apart from
  a thread that is not yet created, so a run starts with every thread at its
  first line.
-/

namespace LectoresEscritores

/-! ## Control points -/

/-- Control points of `lector`, named after the next source line to execute. -/
inductive LPc
  | l31 | l35 | l36 | l37 | l38 | l39 | l40 | l41 | l43
  | l49 | l50 | l51 | l52 | l53 | l55 | l56 | l57 | l59
  deriving DecidableEq, Repr

/-- Control points of `escritor`, named after the next source line to execute. -/
inductive EPc
  | e65 | e69 | e70 | e71 | e73 | e76 | e80 | e82 | e83 | e84 | e86
  deriving DecidableEq, Repr

/-- The global variables of the C file (lines 9-19) that the threads share. -/
structure Shared where
  sem_escritura : Nat
  sem_turno : Nat
  mutex : Bool
  lectores_activos : Int
  libros : Int
  operaciones_completadas : Int
  mutex_metricas : Bool
  deriving DecidableEq, Repr

/-- One atomic action of a `lector` thread (lines 28-60).  `none` means the
thread cannot move: it is blocked, or it has returned. -/
def lectorStep (g : Shared) : LPc → Option (Shared × LPc)
  | .l31 => some (g, .l35)
  | .l35 => if 0 < g.sem_turno then some ({ g with sem_turno := g.sem_turno - 1 }, .l36) else none
  | .l36 => if g.mutex then none else some ({ g with mutex := true }, .l37)
  | .l37 => some ({ g with lectores_activos := g.lectores_activos + 1 }, .l38)
  | .l38 => some (g, if g.lectores_activos = 1 then .l39 else .l40)
  | .l39 =>
    if 0 < g.sem_escritura then some ({ g with sem_escritura := g.sem_escritura - 1 }, .l40)
    else none
  | .l40 => some ({ g with mutex := false }, .l41)
  | .l41 => some ({ g with sem_turno := g.sem_turno + 1 }, .l43)
  | .l43 => some (g, .l49)
  | .l49 => if g.mutex then none else some ({ g with mutex := true }, .l50)
  | .l50 => some ({ g with lectores_activos := g.lectores_activos - 1 }, .l51)
  | .l51 => some (g, if g.lectores_activos = 0 then .l52 else .l53)
  | .l52 => some ({ g with sem_escritura := g.sem_escritura + 1 }, .l53)
  | .l53 => some ({ g with mutex := false }, .l55)
  | .l55 => if g.mutex_metricas then none else some ({ g with mutex_metricas := true }, .l56)
  | .l56 => some ({ g with operaciones_completadas := g.operaciones_completadas + 1 }, .l57)
  | .l57 => some ({ g with mutex_metricas := false }, .l59)
  | .l59 => none

/-- One atomic action of an `escritor` thread (lines 62-87). -/
def escritorStep (g : Shared) : EPc → Option (Shared × EPc)
  | .e65 => some (g, .e69)
  | .e69 => if 0 < g.sem_turno then some ({ g with sem_turno := g.sem_turno - 1 }, .e70) else none
  | .e70 =>
    if 0 < g.sem_escritura then some ({ g with sem_escritura := g.sem_escritura - 1 }, .e71)
    else none
  | .e71 => some ({ g with sem_turno := g.sem_turno + 1 }, .e73)
  | .e73 => some (g, .e76)
  | .e76 => some ({ g with libros := g.libros + 3 }, .e80)
  | .e80 => some ({ g with sem_escritura := g.sem_escritura + 1 }, .e82)
  | .e82 => if g.mutex_metricas then none else some ({ g with mutex_metricas := true }, .e83)
  | .e83 => some ({ g with operaciones_completadas := g.operaciones_completadas + 1 }, .e84)
  | .e84 => some ({ g with mutex_metricas := false }, .e86)
  | .e86 => none

/-- The whole program state while the threads run: the globals and the control
point of every `lector` and every `escritor`. -/
structure State where
  sh : Shared
  lect : List LPc
  escr : List EPc
  deriving DecidableEq, Repr

/-- A thread of the run: the `i`-th lector or the `j`-th escritor (0-based;
the C `id` is `i + 1`, respectively `n_lectores + j + 1`). -/
inductive Hilo
  | lector (i : Nat)
  | escritor (j : Nat)
  deriving DecidableEq, Repr

/-- The step of the program in which thread `t` performs its next action. -/
def step (s : State) : Hilo → Option State
  | .lector i =>
    match s.lect[i]? with
    | none => none
    | some pc =>
      match lectorStep s.sh pc with
      | none => none
      | some (g, pc') => some ⟨g, s.lect.set i pc', s.escr⟩
  | .escritor j =>
    match s.escr[j]? with
    | none => none
    | some pc =>
      match escritorStep s.sh pc with
      | none => none
      | some (g, pc') => some ⟨g, s.lect, s.escr.set j pc'⟩

/-- The state set up by `main` (lines 12-13, 18, 106-109) for `R` lectores and
`K` escritores. -/
def init (R K : Nat) : State :=
  ⟨⟨1, 1, false, 0, 1, 0, false⟩, List.replicate R .l31, List.replicate K .e65⟩

/-- Runs a schedule: the threads move in the order listed. -/
def run (s : State) : List Hilo → Option State
  | [] => some s
  | t :: ts =>
    match step s t with
    | none => none
    | some s' => run s' ts

/-- States that some interleaving of the threads can reach. -/
inductive Reachable (R K : Nat) : State → Prop
  | init : Reachable R K (init R K)
  | step {s s' : State} (t : Hilo) : Reachable R K s → step s t = some s' → Reachable R K s'

/-- Every thread has returned. -/
def allReturned (s : State) : Prop :=
  (∀ p ∈ s.lect, p = LPc.l59) ∧ (∀ p ∈ s.escr, p = EPc.e86)

instance (s : State) : Decidable (allReturned s) := by
  unfold allReturned; exact inferInstance

/-! ## The metrics computed by `main` (lines 100, 134-145), over exact rationals -/

/-- Line 100: `total_hilos = n_lectores + n_escritores`.  This is the value of
the `int` of the program whenever the sum is within the range of `int`; `main`
below is only defined for such sums. -/
def total_hilos (n_lectores n_escritores : Int) : Int := n_lectores + n_escritores

/-- Lines 135-137: `suma` after the loop over `tiempos_espera`. -/
def suma (tiempos_espera : List ℚ) : ℚ :=
  tiempos_espera.foldl (fun acc x => acc + x) 0

/-- Lines 135-138: `suma_cuadrados` after the loop over `tiempos_espera`. -/
def suma_cuadrados (tiempos_espera : List ℚ) : ℚ :=
  tiempos_espera.foldl (fun acc x => acc + x * x) 0

/-- Line 141: `promedio_espera = suma / total_hilos`. -/
def promedio_espera (tiempos_espera : List ℚ) (total_hilos : Int) : ℚ :=
  suma tiempos_espera / (total_hilos : ℚ)

/-- Line 142: `varianza = (suma_cuadrados / total_hilos) - (promedio_espera * promedio_espera)`. -/
def varianza (tiempos_espera : List ℚ) (total_hilos : Int) : ℚ :=
  suma_cuadrados tiempos_espera / (total_hilos : ℚ)
    - promedio_espera tiempos_espera total_hilos * promedio_espera tiempos_espera total_hilos

/-- Line 144: `throughput = operaciones_completadas / duracion_total`. -/
def throughput (operaciones_completadas : Int) (duracion_total : ℚ) : ℚ :=
  (operaciones_completadas : ℚ) / duracion_total

/-- Line 145: `overhead = promedio_espera / total_hilos`. -/
def overhead (tiempos_espera : List ℚ) (total_hilos : Int) : ℚ :=
  promedio_espera tiempos_espera total_hilos / (total_hilos : ℚ)

/-! ## The same computation in binary64 arithmetic

A finite `double` is an integer mantissa times a power of two.  Every
arithmetic operation of the C code is the exact operation followed by one
rounding to 53 significant bits, to nearest, ties to even (the default IEEE-754
mode, each operation rounded once).  Overflow, subnormal numbers and NaN are
outside this model; it is used on values well inside the normal range. -/

/-- A finite binary64 value `m * 2 ^ e`. -/
structure Doble where
  m : Int
  e : Int
  deriving DecidableEq, Repr

/-- The rational number that a `Doble` stands for. -/
def Doble.toRat (a : Doble) : ℚ := (a.m : ℚ) * (2 : ℚ) ^ a.e

/-- Position of the leading bit of `n`, by at most `fuel` halvings. -/
def log2Aux : Nat → Nat → Nat
  | 0, _ => 0
  | fuel + 1, n => if n ≤ 1 then 0 else 1 + log2Aux fuel (n / 2)

/-- Position of the leading bit of `n` (for `n < 2 ^ 2200`). -/
def log2 (n : Nat) : Nat := log2Aux 2200 n

/-- The positive fraction `n / d` rounded to 53 significant bits, to nearest,
ties to even: the result `(m, s)` stands for `m * 2 ^ s`, with
`2 ^ 52 ≤ m ≤ 2 ^ 53`. -/
def redondeo53 (n d : Nat) : Nat × Int :=
  let s0 : Int := (log2 n : Int) - (log2 d : Int) - 52
  let q0 : Nat := if 0 ≤ s0 then n / (d * 2 ^ s0.toNat) else (n * 2 ^ (-s0).toNat) / d
  let s : Int := if q0 < 2 ^ 52 then s0 - 1 else s0
  let num : Nat := if 0 ≤ s then n else n * 2 ^ (-s).toNat
  let den : Nat := if 0 ≤ s then d * 2 ^ s.toNat else d
  let q : Nat := num / den
  let r : Nat := num % den
  let m : Nat :=
    if 2 * r < den then q else if den < 2 * r then q + 1 else if q % 2 = 0 then q else q + 1
  (m, s)

/-- The number `± (n / d) * 2 ^ e` rounded to binary64. -/
def Doble.redondear (neg : Bool) (n d : Nat) (e : Int) : Doble :=
  if n = 0 then ⟨0, 0⟩
  else
    let r := redondeo53 n d
    ⟨if neg then -(r.1 : Int) else (r.1 : Int), r.2 + e⟩

/-- The C operation `a + b` on `double`. -/
def Doble.add (a b : Doble) : Doble :=
  let e := min a.e b.e
  let z : Int := a.m * 2 ^ (a.e - e).toNat + b.m * 2 ^ (b.e - e).toNat
  Doble.redondear (decide (z < 0)) z.natAbs 1 e

/-- The C operation `a - b` on `double`. -/
def Doble.sub (a b : Doble) : Doble := a.add ⟨-b.m, b.e⟩

/-- The C operation `a * b` on `double`. -/
def Doble.mul (a b : Doble) : Doble :=
  Doble.redondear (decide (a.m * b.m < 0)) (a.m * b.m).natAbs 1 (a.e + b.e)

/-- The C operation `a / b` on `double`, for `b ≠ 0`. -/
def Doble.div (a b : Doble) : Doble :=
  Doble.redondear (decide (a.m < 0) != decide (b.m < 0)) a.m.natAbs b.m.natAbs (a.e - b.e)

/-- The conversion of an `int` to `double`. -/
def Doble.ofInt (n : Int) : Doble := Doble.redondear (decide (n < 0)) n.natAbs 1 0

/-- Lines 135-142 in binary64: the value `varianza` that line 143 passes to
`sqrt`.  Nothing stands between the subtraction of line 142 and the call. -/
def varianzaDoble (tiempos_espera : List Doble) (total_hilos : Int) : Doble :=
  let suma : Doble := tiempos_espera.foldl (fun acc x => acc.add x) ⟨0, 0⟩
  let suma_cuadrados : Doble := tiempos_espera.foldl (fun acc x => acc.add (x.mul x)) ⟨0, 0⟩
  let promedio_espera : Doble := suma.div (Doble.ofInt total_hilos)
  (suma_cuadrados.div (Doble.ofInt total_hilos)).sub (promedio_espera.mul promedio_espera)

/-- The `double` nearest to 0.1, `0x1.999999999999ap-4`. -/
def unDecimo : Doble := ⟨3602879701896397, -55⟩

/-! ## The control flow of `main` (lines 89-165) -/

/-- What `main` does, one event per action that matters here. -/
inductive Evento
  | malloc (bytes : Int)
  | init_sincronizacion
  | crear_lector (id : Int)
  | crear_escritor (id : Int)
  | join_lector (i : Nat)
  | join_escritor (i : Nat)
  | leer_tiempo (i : Nat)
  | dividir_por (total_hilos : Int)
  | destruir
  | retorno (codigo : Int)
  deriving DecidableEq, Repr

/-- The largest value of the 32-bit `int` of the program. -/
def INT_MAX : Int := 2147483647

/-- What a run of `main` amounts to: either C gives the run no meaning and the
process does not complete it, or the run performs a list of events. -/
inductive Resultado
  | indefinido
  | termina (traza : List Evento)
  deriving DecidableEq, Repr

/-- The run of `main` for the two numbers read by `scanf` (lines 96, 98).

The run is defined only when both counts are not negative (they are the
lengths of the arrays of lines 103-104), their sum does not overflow the `int`
`total_hilos` of line 100, and the process can hold that many threads:
`capacidad` stands for the limit of the environment (the stack that holds the
arrays of lines 103-104 and the threads that `pthread_create`, whose result is
not checked, can start), which the source does not fix.  Outside that range
the result is `indefinido`.

Inside it the events are: line 101, lines 106-109, the creation loops
(lines 114-123), the join loops (lines 126-129), the loop over
`tiempos_espera` (lines 136-139), the divisions by `total_hilos` of lines 141,
142 and 145, lines 158-162 and `return 0`.  `main` has no branch on the two
counts other than these loops, and no other `return`. -/
def main (capacidad : Nat) (n_lectores n_escritores : Int) : Resultado :=
  if 0 ≤ n_lectores ∧ 0 ≤ n_escritores ∧ n_lectores + n_escritores ≤ INT_MAX
      ∧ n_lectores + n_escritores ≤ (capacidad : Int) then
    .termina
      ([.malloc (8 * total_hilos n_lectores n_escritores), .init_sincronizacion]
        ++ (List.range n_lectores.toNat).map
            (fun (i : Nat) => Evento.crear_lector ((i : Int) + 1))
        ++ (List.range n_escritores.toNat).map
            (fun (i : Nat) => Evento.crear_escritor (n_lectores + (i : Int) + 1))
        ++ (List.range n_lectores.toNat).map Evento.join_lector
        ++ (List.range n_escritores.toNat).map Evento.join_escritor
        ++ (List.range (total_hilos n_lectores n_escritores).toNat).map Evento.leer_tiempo
        ++ [.dividir_por (total_hilos n_lectores n_escritores),
            .dividir_por (total_hilos n_lectores n_escritores),
            .dividir_por (total_hilos n_lectores n_escritores), .destruir, .retorno 0])
  else .indefinido

/-- The events of a run; none when the run is not defined. -/
def Resultado.eventos : Resultado → List Evento
  | .termina tr => tr
  | .indefinido => []

/-- The event creates a thread (`pthread_create`, lines 116 and 122). -/
def Evento.esCreacion : Evento → Bool
  | .crear_lector _ | .crear_escritor _ => true
  | _ => false

/-- The event indexes the wait-sample storage `tiempos_espera`. -/
def Evento.esLectura : Evento → Bool
  | .leer_tiempo _ => true
  | _ => false

/-- The event divides by `total_hilos`. -/
def Evento.esDivision : Evento → Bool
  | .dividir_por _ => true
  | _ => false

/-- The run ends with a configuration error: `main` returns a non-zero status. -/
def terminaConError : Resultado → Prop
  | .termina tr => ∃ c : Int, c ≠ 0 ∧ tr.getLast? = some (.retorno c)
  | .indefinido => False

/-! ## Who holds what -/

/-- An escritor that is blocked at line 70: it is about to execute
`sem_wait(&sem_escritura)` and the semaphore is 0. -/
def esperaEscritura (s : State) (j : Nat) : Prop :=
  s.escr[j]? = some .e70 ∧ s.sh.sem_escritura = 0

/-- An escritor that holds `sem_turno`: it has executed `sem_wait(&sem_turno)`
(line 69) and not yet `sem_post(&sem_turno)` (line 71). -/
def tieneTurno (s : State) (j : Nat) : Prop :=
  s.escr[j]? = some .e70 ∨ s.escr[j]? = some .e71

/-- The control points at which a lector holds `mutex` (after line 36 and
before line 40, after line 49 and before line 53). -/
def enMutex : LPc → Bool
  | .l37 | .l38 | .l39 | .l40 | .l50 | .l51 | .l52 | .l53 => true
  | _ => false

/-! ## Admissions while an escritor waits -/

/-- Escritor `j` waits for its turn to write: it has arrived at the gate
(line 69) and has not yet acquired `sem_escritura` (line 70 not yet executed). -/
def esperando (s : State) (j : Nat) : Bool :=
  s.escr[j]? = some .e69 || s.escr[j]? = some .e70

/-- The next action of thread `t` admits a lector: it is `lectores_activos++`
(line 37). -/
def admite (s : State) : Hilo → Bool
  | .lector i => s.lect[i]? = some .l37
  | .escritor _ => false

/-- Number of lectores admitted along a schedule while escritor `j` waits. -/
def admitidos (j : Nat) : State → List Hilo → Nat
  | _, [] => 0
  | s, t :: ts =>
    match step s t with
    | none => 0
    | some s' => (if esperando s j && admite s t then 1 else 0) + admitidos j s' ts

/-- The 17 actions of lector `i`, from line 31 to its return. -/
def pasada (i : Nat) : List Hilo := List.replicate 17 (.lector i)

/-- Lectores `k`, `k+1`, ..., `k+m-1` run one after the other, each to its return. -/
def pasadas (k : Nat) : Nat → List Hilo
  | 0 => []
  | m + 1 => pasada k ++ pasadas (k + 1) m

/-! ## Counting threads per control point -/

/-- Number of lectores at control point `p`. -/
def nL (s : State) (p : LPc) : Nat := s.lect.count p

/-- Number of escritores at control point `p`. -/
def nE (s : State) (p : EPc) : Nat := s.escr.count p

/-! ## The protocol invariant -/

/-- The facts that hold in every reachable state of a run with `R` lectores and
`K` escritores, stated over the number of threads at each control point. -/
structure Inv (R K : Nat) (s : State) : Prop where
  lenL : s.lect.length = R
  lenE : s.escr.length = K
  turno : s.sh.sem_turno + (nL s .l36 + nL s .l37 + nL s .l38 + nL s .l39 + nL s .l40 + nL s .l41)
      + (nE s .e70 + nE s .e71) = 1
  mutexN : s.sh.mutex.toNat = nL s .l37 + nL s .l38 + nL s .l39 + nL s .l40
      + nL s .l50 + nL s .l51 + nL s .l52 + nL s .l53
  metrN : s.sh.mutex_metricas.toNat = nL s .l56 + nL s .l57 + nE s .e83 + nE s .e84
  activos : s.sh.lectores_activos
      = ((nL s .l38 + nL s .l39 + nL s .l40 + nL s .l41 + nL s .l43 + nL s .l49 + nL s .l50 : Nat) : Int)
  at39 : 1 ≤ nL s .l39 → s.sh.lectores_activos = 1
  at52 : 1 ≤ nL s .l52 → s.sh.lectores_activos = 0
  esc0 : s.sh.lectores_activos = 0 →
      s.sh.sem_escritura + (nE s .e71 + nE s .e73 + nE s .e76 + nE s .e80)
        + nL s .l51 + nL s .l52 = 1
  esc1 : s.sh.lectores_activos = 1 →
      s.sh.sem_escritura + (nE s .e71 + nE s .e73 + nE s .e76 + nE s .e80) + 1
        = 1 + nL s .l38 + nL s .l39
  esc2 : 2 ≤ s.sh.lectores_activos →
      s.sh.sem_escritura + (nE s .e71 + nE s .e73 + nE s .e76 + nE s .e80) = 0
  libros : s.sh.libros
      = 1 + 3 * ((nE s .e80 + nE s .e82 + nE s .e83 + nE s .e84 + nE s .e86 : Nat) : Int)
  ops : s.sh.operaciones_completadas
      = ((nL s .l57 + nL s .l59 + nE s .e84 + nE s .e86 : Nat) : Int)

/-! ## States and schedules used as examples -/

/-- A state of the run with two lectores and one escritor: lector 0 is reading
(line 43), the escritor is at line 70, lector 1 is at line 35. -/
def estadoEscritorBloqueado : State :=
  ⟨⟨0, 0, false, 1, 1, 0, false⟩, [.l43, .l35], [.e70]⟩

/-- A schedule of the run with `B + 1` lectores and one escritor: lector 0
takes `sem_turno` (it is at line 36), the escritor arrives at line 69, where it
finds `sem_turno = 0`, lector 0 runs on to its return, and then the lectores
`1`, ..., `B`, which were all still at line 31 when the escritor arrived, run
one after the other, each from line 31 to its return. -/
def adelantamiento (B : Nat) : List Hilo :=
  [.lector 0, .lector 0, .escritor 0] ++ List.replicate 15 (.lector 0) ++ pasadas 1 B

/-! # Theorems -/

theorem count_set_eq {α : Type} [DecidableEq α] (l : List α) (i : Nat) (a b p : α)
    (h : l[i]? = some a) :
    (l.set i b).count p = l.count p + (if b = p then 1 else 0) - (if a = p then 1 else 0) := by
  induction l generalizing i with
  | nil => simp at h
  | cons x xs ih =>
    cases i with
    | zero =>
      simp at h
      subst h
      simp [List.count_cons]
      split_ifs <;> omega
    | succ n =>
      simp at h
      have := ih n h
      simp [List.count_cons, this]
      have hpos : (if a = p then 1 else 0) ≤ xs.count p := by
        split_ifs with hap
        · subst hap
          exact List.count_pos_iff.mpr (List.getElem?_mem h)
        · omega
      split_ifs at * <;> omega

theorem count_pos_of_get {α : Type} [DecidableEq α] (l : List α) (i : Nat) (a : α)
    (h : l[i]? = some a) : 1 ≤ l.count a :=
  List.count_pos_iff.mpr (List.getElem?_mem h)

theorem exists_get_of_count_pos {α : Type} [DecidableEq α] (l : List α) (a : α)
    (h : 1 ≤ l.count a) : ∃ i : Nat, l[i]? = some a := by
  have hm : a ∈ l := List.count_pos_iff.mp h
  exact List.mem_iff_getElem?.mp hm

theorem inv_init (R K : Nat) : Inv R K (init R K) := by
  constructor <;> simp [init, nL, nE, List.count_replicate]

theorem step_lector_some {s s' : State} {i : Nat} (hs : step s (.lector i) = some s') :
    ∃ pc g pc', s.lect[i]? = some pc ∧ lectorStep s.sh pc = some (g, pc')
      ∧ s' = ⟨g, s.lect.set i pc', s.escr⟩ := by
  simp only [step] at hs
  cases hp : s.lect[i]? with
  | none => simp [hp] at hs
  | some pc =>
    cases hl : lectorStep s.sh pc with
    | none => simp [hp, hl] at hs
    | some r =>
      obtain ⟨g, pc'⟩ := r
      simp [hp, hl] at hs
      exact ⟨pc, g, pc', rfl, hl, hs.symm⟩

theorem step_escritor_some {s s' : State} {j : Nat} (hs : step s (.escritor j) = some s') :
    ∃ pc g pc', s.escr[j]? = some pc ∧ escritorStep s.sh pc = some (g, pc')
      ∧ s' = ⟨g, s.lect, s.escr.set j pc'⟩ := by
  simp only [step] at hs
  cases hp : s.escr[j]? with
  | none => simp [hp] at hs
  | some pc =>
    cases hl : escritorStep s.sh pc with
    | none => simp [hp, hl] at hs
    | some r =>
      obtain ⟨g, pc'⟩ := r
      simp [hp, hl] at hs
      exact ⟨pc, g, pc', rfl, hl, hs.symm⟩

theorem inv_step_lector {R K : Nat} {s s' : State} (i : Nat) (h : Inv R K s)
    (hs : step s (.lector i) = some s') : Inv R K s' := by
  obtain ⟨pc, g, pc', hp, hl, rfl⟩ := step_lector_some hs
  obtain ⟨⟨se, st, mu, la, lb, op, mm⟩, lect, escr⟩ := s
  obtain ⟨h1, h2, h3, h4, h5, h6, h7, h8, h9, h10, h11, h12, h13⟩ := h
  have hpos := count_pos_of_get lect i pc hp
  have hmu := Bool.toNat_le mu
  have hmm := Bool.toNat_le mm
  simp only [nL, nE] at *
  cases pc <;> simp [lectorStep] at hl <;>
    (first | (obtain ⟨rfl, rfl⟩ := hl; have hg := trivial) | obtain ⟨hg, rfl, rfl⟩ := hl) <;>
    (first | (subst hg; have hg := trivial) | skip) <;>
    (first | split_ifs with hla | have hla := trivial) <;>
    (try simp only [Bool.toNat_false] at h4 h5)
  all_goals
    exact ⟨
      (by
        clear * - hp hpos h1
        simp only [nL, nE, count_set_eq lect i _ _ _ hp, List.length_set, reduceCtorEq, if_true,
          if_false, Bool.toNat_true, Bool.toNat_false, Nat.add_zero, Nat.sub_zero]
        omega),
      (by
        clear * - hp hpos h2
        simp only [nL, nE, count_set_eq lect i _ _ _ hp, List.length_set, reduceCtorEq, if_true,
          if_false, Bool.toNat_true, Bool.toNat_false, Nat.add_zero, Nat.sub_zero]
        omega),
      (by
        clear * - hp hpos h3 hg
        simp only [nL, nE, count_set_eq lect i _ _ _ hp, List.length_set, reduceCtorEq, if_true,
          if_false, Bool.toNat_true, Bool.toNat_false, Nat.add_zero, Nat.sub_zero]
        omega),
      (by
        clear * - hp hpos h4 hmu
        simp only [nL, nE, count_set_eq lect i _ _ _ hp, List.length_set, reduceCtorEq, if_true,
          if_false, Bool.toNat_true, Bool.toNat_false, Nat.add_zero, Nat.sub_zero]
        omega),
      (by
        clear * - hp hpos h5 hmm
        simp only [nL, nE, count_set_eq lect i _ _ _ hp, List.length_set, reduceCtorEq, if_true,
          if_false, Bool.toNat_true, Bool.toNat_false, Nat.add_zero, Nat.sub_zero]
        omega),
      (by
        clear * - hp hpos h6
        simp only [nL, nE, count_set_eq lect i _ _ _ hp, List.length_set, reduceCtorEq, if_true,
          if_false, Bool.toNat_true, Bool.toNat_false, Nat.add_zero, Nat.sub_zero]
        omega),
      (by
        clear * - hp hpos h4 h6 h7 hmu hla
        simp only [nL, nE, count_set_eq lect i _ _ _ hp, List.length_set, reduceCtorEq, if_true,
          if_false, Bool.toNat_true, Bool.toNat_false, Nat.add_zero, Nat.sub_zero]
        omega),
      (by
        clear * - hp hpos h4 h6 h8 hmu hla
        simp only [nL, nE, count_set_eq lect i _ _ _ hp, List.length_set, reduceCtorEq, if_true,
          if_false, Bool.toNat_true, Bool.toNat_false, Nat.add_zero, Nat.sub_zero]
        omega),
      (by
        clear * - hp hpos h4 h6 h7 h8 h9 h10 h11 hmu hla hg
        simp only [nL, nE, count_set_eq lect i _ _ _ hp, List.length_set, reduceCtorEq, if_true,
          if_false, Bool.toNat_true, Bool.toNat_false, Nat.add_zero, Nat.sub_zero]
        omega),
      (by
        clear * - hp hpos h4 h6 h7 h8 h9 h10 h11 hmu hla hg
        simp only [nL, nE, count_set_eq lect i _ _ _ hp, List.length_set, reduceCtorEq, if_true,
          if_false, Bool.toNat_true, Bool.toNat_false, Nat.add_zero, Nat.sub_zero]
        omega),
      (by
        clear * - hp hpos h4 h6 h7 h8 h9 h10 h11 hmu hla hg
        simp only [nL, nE, count_set_eq lect i _ _ _ hp, List.length_set, reduceCtorEq, if_true,
          if_false, Bool.toNat_true, Bool.toNat_false, Nat.add_zero, Nat.sub_zero]
        omega),
      (by
        clear * - hp hpos h12
        simp only [nL, nE, count_set_eq lect i _ _ _ hp, List.length_set, reduceCtorEq, if_true,
          if_false, Bool.toNat_true, Bool.toNat_false, Nat.add_zero, Nat.sub_zero]
        omega),
      (by
        clear * - hp hpos h13
        simp only [nL, nE, count_set_eq lect i _ _ _ hp, List.length_set, reduceCtorEq, if_true,
          if_false, Bool.toNat_true, Bool.toNat_false, Nat.add_zero, Nat.sub_zero]
        omega)⟩

theorem inv_step_escritor {R K : Nat} {s s' : State} (j : Nat) (h : Inv R K s)
    (hs : step s (.escritor j) = some s') : Inv R K s' := by
  obtain ⟨pc, g, pc', hp, hl, rfl⟩ := step_escritor_some hs
  obtain ⟨⟨se, st, mu, la, lb, op, mm⟩, lect, escr⟩ := s
  obtain ⟨h1, h2, h3, h4, h5, h6, h7, h8, h9, h10, h11, h12, h13⟩ := h
  have hpos := count_pos_of_get escr j pc hp
  have hmu := Bool.toNat_le mu
  have hmm := Bool.toNat_le mm
  have hla := trivial
  simp only [nL, nE] at *
  cases pc <;> simp [escritorStep] at hl <;>
    (first | (obtain ⟨rfl, rfl⟩ := hl; have hg := trivial) | obtain ⟨hg, rfl, rfl⟩ := hl) <;>
    (first | (subst hg; have hg := trivial) | skip) <;>
    (try simp only [Bool.toNat_false] at h4 h5)
  all_goals
    exact ⟨
      (by
        clear * - hp hpos h1
        simp only [nL, nE, count_set_eq escr j _ _ _ hp, List.length_set, reduceCtorEq, if_true,
          if_false, Bool.toNat_true, Bool.toNat_false, Nat.add_zero, Nat.sub_zero]
        omega),
      (by
        clear * - hp hpos h2
        simp only [nL, nE, count_set_eq escr j _ _ _ hp, List.length_set, reduceCtorEq, if_true,
          if_false, Bool.toNat_true, Bool.toNat_false, Nat.add_zero, Nat.sub_zero]
        omega),
      (by
        clear * - hp hpos h3 hg
        simp only [nL, nE, count_set_eq escr j _ _ _ hp, List.length_set, reduceCtorEq, if_true,
          if_false, Bool.toNat_true, Bool.toNat_false, Nat.add_zero, Nat.sub_zero]
        omega),
      (by
        clear * - hp hpos h4 hmu
        simp only [nL, nE, count_set_eq escr j _ _ _ hp, List.length_set, reduceCtorEq, if_true,
          if_false, Bool.toNat_true, Bool.toNat_false, Nat.add_zero, Nat.sub_zero]
        omega),
      (by
        clear * - hp hpos h5 hmm
        simp only [nL, nE, count_set_eq escr j _ _ _ hp, List.length_set, reduceCtorEq, if_true,
          if_false, Bool.toNat_true, Bool.toNat_false, Nat.add_zero, Nat.sub_zero]
        omega),
      (by
        clear * - hp hpos h6
        simp only [nL, nE, count_set_eq escr j _ _ _ hp, List.length_set, reduceCtorEq, if_true,
          if_false, Bool.toNat_true, Bool.toNat_false, Nat.add_zero, Nat.sub_zero]
        omega),
      (by
        clear * - hp hpos h4 h6 h7 hmu hla
        simp only [nL, nE, count_set_eq escr j _ _ _ hp, List.length_set, reduceCtorEq, if_true,
          if_false, Bool.toNat_true, Bool.toNat_false, Nat.add_zero, Nat.sub_zero]
        omega),
      (by
        clear * - hp hpos h4 h6 h8 hmu hla
        simp only [nL, nE, count_set_eq escr j _ _ _ hp, List.length_set, reduceCtorEq, if_true,
          if_false, Bool.toNat_true, Bool.toNat_false, Nat.add_zero, Nat.sub_zero]
        omega),
      (by
        clear * - hp hpos h4 h6 h7 h8 h9 h10 h11 hmu hla hg
        simp only [nL, nE, count_set_eq escr j _ _ _ hp, List.length_set, reduceCtorEq, if_true,
          if_false, Bool.toNat_true, Bool.toNat_false, Nat.add_zero, Nat.sub_zero]
        omega),
      (by
        clear * - hp hpos h4 h6 h7 h8 h9 h10 h11 hmu hla hg
        simp only [nL, nE, count_set_eq escr j _ _ _ hp, List.length_set, reduceCtorEq, if_true,
          if_false, Bool.toNat_true, Bool.toNat_false, Nat.add_zero, Nat.sub_zero]
        omega),
      (by
        clear * - hp hpos h4 h6 h7 h8 h9 h10 h11 hmu hla hg
        simp only [nL, nE, count_set_eq escr j _ _ _ hp, List.length_set, reduceCtorEq, if_true,
          if_false, Bool.toNat_true, Bool.toNat_false, Nat.add_zero, Nat.sub_zero]
        omega),
      (by
        clear * - hp hpos h12
        simp only [nL, nE, count_set_eq escr j _ _ _ hp, List.length_set, reduceCtorEq, if_true,
          if_false, Bool.toNat_true, Bool.toNat_false, Nat.add_zero, Nat.sub_zero]
        omega),
      (by
        clear * - hp hpos h13
        simp only [nL, nE, count_set_eq escr j _ _ _ hp, List.length_set, reduceCtorEq, if_true,
          if_false, Bool.toNat_true, Bool.toNat_false, Nat.add_zero, Nat.sub_zero]
        omega)⟩

theorem inv_reachable {R K : Nat} {s : State} (h : Reachable R K s) : Inv R K s := by
  induction h with
  | init => exact inv_init R K
  | step t _ hs ih =>
    cases t with
    | lector i => exact inv_step_lector i ih hs
    | escritor j => exact inv_step_escritor j ih hs

theorem reachable_of_run {R K : Nat} {s s' : State} (σ : List Hilo) (hr : Reachable R K s)
    (h : run s σ = some s') : Reachable R K s' := by
  induction σ generalizing s with
  | nil =>
    simp [run] at h
    exact h ▸ hr
  | cons t ts ih =>
    simp only [run] at h
    cases hst : step s t with
    | none => simp [hst] at h
    | some s1 =>
      simp only [hst] at h
      exact ih (Reachable.step t hr hst) h

theorem count_eq_length_of_all {α : Type} [DecidableEq α] (l : List α) (a : α)
    (h : ∀ p ∈ l, p = a) : l.count a = l.length := by
  rw [List.count_eq_length]
  intro b hb
  exact (h b hb).symm

theorem lectorStep_libros (g g' : Shared) (pc pc' : LPc)
    (h : lectorStep g pc = some (g', pc')) : g'.libros = g.libros := by
  cases pc <;> simp [lectorStep] at h <;>
    (first | obtain ⟨rfl, _⟩ := h | obtain ⟨_, rfl, _⟩ := h) <;> rfl

/-! ## Final value of `libros` -/

/-- C1. In a run with `R` lectores and `K` escritores, every reachable state in
which all threads have returned has `libros = 1 + 3 * K`, whatever the
interleaving; no action of a lector changes `libros`; the run with one
escritor and no lector can finish and finishes with `libros = 4`, the run with
one lector and no escritor can finish and finishes with `libros = 1`. -/
theorem libros_final (R K : Nat) :
    (∀ s, Reachable R K s → allReturned s → s.sh.libros = 1 + 3 * (K : Int))
    ∧ (∀ g pc g' pc', lectorStep g pc = some (g', pc') → g'.libros = g.libros)
    ∧ (∀ s i s', step s (.lector i) = some s' → s'.sh.libros = s.sh.libros)
    ∧ (∃ s, Reachable 0 1 s ∧ allReturned s)
    ∧ (∀ s, Reachable 0 1 s → allReturned s → s.sh.libros = 4)
    ∧ (∃ s, Reachable 1 0 s ∧ allReturned s)
    ∧ (∀ s, Reachable 1 0 s → allReturned s → s.sh.libros = 1) := by
  have main : ∀ (R K : Nat) (s : State), Reachable R K s → allReturned s →
      s.sh.libros = 1 + 3 * (K : Int) := by
    intro R K s hr hd
    have hI := inv_reachable hr
    have h86 : nE s .e86 = K := by
      rw [nE, count_eq_length_of_all _ _ hd.2, hI.lenE]
    have hz : ∀ p, p ≠ EPc.e86 → nE s p = 0 := by
      intro p hp
      rw [nE, List.count_eq_zero]
      intro hm
      exact hp (hd.2 p hm)
    rw [hI.libros, h86, hz .e80 (by decide), hz .e82 (by decide), hz .e83 (by decide),
      hz .e84 (by decide)]
    simp
  refine ⟨main R K, fun g pc g' pc' h => lectorStep_libros g g' pc pc' h, ?_, ?_, ?_, ?_, ?_⟩
  · intro s i s' hs
    obtain ⟨pc, g, pc', _, hl, rfl⟩ := step_lector_some hs
    exact lectorStep_libros _ _ _ _ hl
  · exact ⟨_, reachable_of_run (List.replicate 10 (.escritor 0)) Reachable.init rfl, by decide⟩
  · intro s hr hd
    simpa using main 0 1 s hr hd
  · exact ⟨_, reachable_of_run (List.replicate 17 (.lector 0)) Reachable.init rfl, by decide⟩
  · intro s hr hd
    simpa using main 1 0 s hr hd

/-- C1 witness: one escritor and no lector, run to completion. -/
theorem libros_final_witness :
    (⟨⟨1, 1, false, 0, 4, 1, false⟩, [], [.e86]⟩ : State).sh.libros = 1 + 3 * ((1 : Nat) : Int) :=
  (libros_final 0 1).1 ⟨⟨1, 1, false, 0, 4, 1, false⟩, [], [.e86]⟩
    (reachable_of_run (List.replicate 10 (.escritor 0)) Reachable.init (by decide)) (by decide)

theorem count_zero_of_all {α : Type} [DecidableEq α] (l : List α) (a p : α)
    (h : ∀ q ∈ l, q = a) (hp : p ≠ a) : l.count p = 0 := by
  rw [List.count_eq_zero]
  intro hm
  exact hp (h p hm)

/-! ## Completed operations -/

/-- C7. In every reachable state `operaciones_completadas` is the number of
threads that have executed their increment (lines 56 and 83), at most one thread
is between locking and unlocking `mutex_metricas`, and that mutex is then
locked; so when all `R + K` threads have returned
`operaciones_completadas = R + K = total_hilos` and
`throughput = total_hilos / duracion_total`. -/
theorem operaciones_final (R K : Nat) :
    (∀ s, Reachable R K s →
      s.sh.operaciones_completadas
          = ((nL s .l57 + nL s .l59 + nE s .e84 + nE s .e86 : Nat) : Int)
      ∧ nL s .l56 + nL s .l57 + nE s .e83 + nE s .e84 ≤ 1
      ∧ (1 ≤ nL s .l56 + nL s .l57 + nE s .e83 + nE s .e84 → s.sh.mutex_metricas = true))
    ∧ (∀ s, Reachable R K s → allReturned s →
      s.sh.operaciones_completadas = (R : Int) + (K : Int)
      ∧ s.sh.operaciones_completadas = total_hilos R K
      ∧ ∀ duracion_total : ℚ,
          throughput s.sh.operaciones_completadas duracion_total
            = ((total_hilos R K : Int) : ℚ) / duracion_total) := by
  constructor
  · intro s hr
    have hI := inv_reachable hr
    refine ⟨hI.ops, ?_, ?_⟩
    · have := Bool.toNat_le s.sh.mutex_metricas
      have := hI.metrN
      omega
    · intro h
      have := hI.metrN
      cases hm : s.sh.mutex_metricas
      · rw [hm] at this
        simp at this
        omega
      · rfl
  · intro s hr hd
    have hI := inv_reachable hr
    have hops : s.sh.operaciones_completadas = (R : Int) + (K : Int) := by
      have h59 : nL s .l59 = R := by rw [nL, count_eq_length_of_all _ _ hd.1, hI.lenL]
      have h86 : nE s .e86 = K := by rw [nE, count_eq_length_of_all _ _ hd.2, hI.lenE]
      have h57 : nL s .l57 = 0 := count_zero_of_all _ _ _ hd.1 (by decide)
      have h84 : nE s .e84 = 0 := count_zero_of_all _ _ _ hd.2 (by decide)
      rw [hI.ops, h59, h86, h57, h84]
      push_cast
      ring
    refine ⟨hops, by rw [hops]; rfl, ?_⟩
    intro d
    rw [throughput, hops]
    simp [total_hilos]

/-- C7 witness: one lector and one escritor, run one after the other. -/
theorem operaciones_final_witness :
    (⟨⟨1, 1, false, 0, 4, 2, false⟩, [.l59], [.e86]⟩ : State).sh.operaciones_completadas
      = ((1 : Nat) : Int) + ((1 : Nat) : Int) :=
  ((operaciones_final 1 1).2 ⟨⟨1, 1, false, 0, 4, 2, false⟩, [.l59], [.e86]⟩
    (reachable_of_run (List.replicate 17 (.lector 0) ++ List.replicate 10 (.escritor 0))
      Reachable.init (by decide)) (by decide)).1

/-! ## Mutual exclusion -/

/-- C2. In every reachable state at most one escritor is between its
`sem_wait(&sem_escritura)` (line 70) and its `sem_post(&sem_escritura)`
(line 80), and when one is there no lector is in its read section, between
its `sem_post(&sem_turno)` (line 41) and its `lectores_activos--` (line 50). -/
theorem exclusion_mutua (R K : Nat) (s : State) (hr : Reachable R K s) :
    nE s .e71 + nE s .e73 + nE s .e76 + nE s .e80 ≤ 1
    ∧ (1 ≤ nE s .e71 + nE s .e73 + nE s .e76 + nE s .e80 →
        nL s .l43 + nL s .l49 + nL s .l50 = 0) := by
  obtain ⟨h1, h2, h3, h4, h5, h6, h7, h8, h9, h10, h11, h12, h13⟩ := inv_reachable hr
  have hmu := Bool.toNat_le s.sh.mutex
  clear h1 h2 h3 h5 h12 h13
  constructor <;> omega

/-- C2 witness: an escritor inside its critical section while a lector waits. -/
theorem exclusion_mutua_witness :
    nE ⟨⟨0, 0, false, 0, 1, 0, false⟩, [.l35], [.e71]⟩ .e71
        + nE ⟨⟨0, 0, false, 0, 1, 0, false⟩, [.l35], [.e71]⟩ .e73
        + nE ⟨⟨0, 0, false, 0, 1, 0, false⟩, [.l35], [.e71]⟩ .e76
        + nE ⟨⟨0, 0, false, 0, 1, 0, false⟩, [.l35], [.e71]⟩ .e80 ≤ 1
    ∧ (1 ≤ nE ⟨⟨0, 0, false, 0, 1, 0, false⟩, [.l35], [.e71]⟩ .e71
        + nE ⟨⟨0, 0, false, 0, 1, 0, false⟩, [.l35], [.e71]⟩ .e73
        + nE ⟨⟨0, 0, false, 0, 1, 0, false⟩, [.l35], [.e71]⟩ .e76
        + nE ⟨⟨0, 0, false, 0, 1, 0, false⟩, [.l35], [.e71]⟩ .e80 →
      nL ⟨⟨0, 0, false, 0, 1, 0, false⟩, [.l35], [.e71]⟩ .l43
        + nL ⟨⟨0, 0, false, 0, 1, 0, false⟩, [.l35], [.e71]⟩ .l49
        + nL ⟨⟨0, 0, false, 0, 1, 0, false⟩, [.l35], [.e71]⟩ .l50 = 0) :=
  exclusion_mutua 1 1 ⟨⟨0, 0, false, 0, 1, 0, false⟩, [.l35], [.e71]⟩
    (reachable_of_run [.lector 0, .escritor 0, .escritor 0, .escritor 0]
      Reachable.init (by decide))

/-! ## Absence of deadlock -/

theorem step_lector_of_get {s : State} {i : Nat} {pc pc' : LPc} {g : Shared}
    (hp : s.lect[i]? = some pc) (hl : lectorStep s.sh pc = some (g, pc')) :
    step s (.lector i) = some ⟨g, s.lect.set i pc', s.escr⟩ := by
  simp [step, hp, hl]

theorem step_escritor_of_get {s : State} {j : Nat} {pc pc' : EPc} {g : Shared}
    (hp : s.escr[j]? = some pc) (hl : escritorStep s.sh pc = some (g, pc')) :
    step s (.escritor j) = some ⟨g, s.lect, s.escr.set j pc'⟩ := by
  simp [step, hp, hl]

theorem lector_stuck {s : State} (hcon : ∀ t s', step s t ≠ some s') (p : LPc) :
    nL s p = 0 ∨ lectorStep s.sh p = none := by
  by_cases h : 1 ≤ nL s p
  · right
    obtain ⟨i, hi⟩ := exists_get_of_count_pos s.lect p h
    cases hl : lectorStep s.sh p with
    | none => rfl
    | some r => exact absurd (step_lector_of_get hi hl) (hcon _ _)
  · left
    omega

theorem escritor_stuck {s : State} (hcon : ∀ t s', step s t ≠ some s') (p : EPc) :
    nE s p = 0 ∨ escritorStep s.sh p = none := by
  by_cases h : 1 ≤ nE s p
  · right
    obtain ⟨j, hj⟩ := exists_get_of_count_pos s.escr p h
    cases hl : escritorStep s.sh p with
    | none => rfl
    | some r => exact absurd (step_escritor_of_get hj hl) (hcon _ _)
  · left
    omega

theorem stuck_lector {s : State} (hcon : ∀ t s', step s t ≠ some s') :
    nL s .l31 = 0 ∧ (nL s .l35 = 0 ∨ s.sh.sem_turno = 0) ∧ (nL s .l36 = 0 ∨ s.sh.mutex.toNat = 1)
    ∧ nL s .l37 = 0 ∧ nL s .l38 = 0 ∧ (nL s .l39 = 0 ∨ s.sh.sem_escritura = 0)
    ∧ nL s .l40 = 0 ∧ nL s .l41 = 0 ∧ nL s .l43 = 0
    ∧ (nL s .l49 = 0 ∨ s.sh.mutex.toNat = 1) ∧ nL s .l50 = 0 ∧ nL s .l51 = 0
    ∧ nL s .l52 = 0 ∧ nL s .l53 = 0 ∧ (nL s .l55 = 0 ∨ s.sh.mutex_metricas.toNat = 1)
    ∧ nL s .l56 = 0 ∧ nL s .l57 = 0 := by
  have a31 := lector_stuck hcon .l31
  have a35 := lector_stuck hcon .l35
  have a36 := lector_stuck hcon .l36
  have a37 := lector_stuck hcon .l37
  have a38 := lector_stuck hcon .l38
  have a39 := lector_stuck hcon .l39
  have a40 := lector_stuck hcon .l40
  have a41 := lector_stuck hcon .l41
  have a43 := lector_stuck hcon .l43
  have a49 := lector_stuck hcon .l49
  have a50 := lector_stuck hcon .l50
  have a51 := lector_stuck hcon .l51
  have a52 := lector_stuck hcon .l52
  have a53 := lector_stuck hcon .l53
  have a55 := lector_stuck hcon .l55
  have a56 := lector_stuck hcon .l56
  have a57 := lector_stuck hcon .l57
  simp only [lectorStep, reduceCtorEq, or_false, ite_eq_right_iff, imp_false, not_lt,
    Nat.le_zero_eq, ite_eq_left_iff, Bool.not_eq_true] at *
  refine ⟨a31, a35, ?_, a37, a38, a39, a40, a41, a43, ?_, a50, a51, a52, a53, ?_, a56, a57⟩
  · rcases a36 with h | h
    · exact Or.inl h
    · right
      cases hm : s.sh.mutex
      · exact absurd hm h
      · rfl
  · rcases a49 with h | h
    · exact Or.inl h
    · right
      cases hm : s.sh.mutex
      · exact absurd hm h
      · rfl
  · rcases a55 with h | h
    · exact Or.inl h
    · right
      cases hm : s.sh.mutex_metricas
      · exact absurd hm h
      · rfl

theorem stuck_escritor {s : State} (hcon : ∀ t s', step s t ≠ some s') :
    nE s .e65 = 0 ∧ (nE s .e69 = 0 ∨ s.sh.sem_turno = 0)
    ∧ (nE s .e70 = 0 ∨ s.sh.sem_escritura = 0) ∧ nE s .e71 = 0 ∧ nE s .e73 = 0
    ∧ nE s .e76 = 0 ∧ nE s .e80 = 0 ∧ (nE s .e82 = 0 ∨ s.sh.mutex_metricas.toNat = 1)
    ∧ nE s .e83 = 0 ∧ nE s .e84 = 0 := by
  have b65 := escritor_stuck hcon .e65
  have b69 := escritor_stuck hcon .e69
  have b70 := escritor_stuck hcon .e70
  have b71 := escritor_stuck hcon .e71
  have b73 := escritor_stuck hcon .e73
  have b76 := escritor_stuck hcon .e76
  have b80 := escritor_stuck hcon .e80
  have b82 := escritor_stuck hcon .e82
  have b83 := escritor_stuck hcon .e83
  have b84 := escritor_stuck hcon .e84
  simp only [escritorStep, reduceCtorEq, or_false, ite_eq_right_iff, imp_false, not_lt,
    Nat.le_zero_eq, ite_eq_left_iff, Bool.not_eq_true] at *
  refine ⟨b65, b69, b70, b71, b73, b76, b80, ?_, b83, b84⟩
  rcases b82 with h | h
  · exact Or.inl h
  · right
    cases hm : s.sh.mutex_metricas
    · exact absurd hm h
    · rfl

theorem stuck_allReturned {R K : Nat} {s : State} (hI : Inv R K s)
    (hcon : ∀ t s', step s t ≠ some s') : allReturned s := by
  obtain ⟨z31, a35, a36, z37, z38, a39, z40, z41, z43, a49, z50, z51, z52, z53, a55, z56, z57⟩ :=
    stuck_lector hcon
  obtain ⟨y65, b69, b70, y71, y73, y76, y80, b82, y83, y84⟩ := stuck_escritor hcon
  clear hcon
  obtain ⟨h1, h2, h3, h4, h5, h6, h7, h8, h9, h10, h11, h12, h13⟩ := hI
  have z39 : nL s .l39 = 0 := by
    clear * - h7 h10 a39 y71 y73 y76 y80 z38
    omega
  have hmu : s.sh.mutex.toNat = 0 := by
    clear * - h4 z37 z38 z39 z40 z50 z51 z52 z53
    omega
  have hmm : s.sh.mutex_metricas.toNat = 0 := by
    clear * - h5 z56 z57 y83 y84
    omega
  have z36 : nL s .l36 = 0 := by
    clear * - a36 hmu
    omega
  have z49 : nL s .l49 = 0 := by
    clear * - a49 hmu
    omega
  have z55 : nL s .l55 = 0 := by
    clear * - a55 hmm
    omega
  have y82 : nE s .e82 = 0 := by
    clear * - b82 hmm
    omega
  have hla : s.sh.lectores_activos = 0 := by
    clear * - h6 z38 z39 z40 z41 z43 z49 z50
    omega
  have hse : s.sh.sem_escritura = 1 := by
    have := h9 hla
    clear * - this y71 y73 y76 y80 z51 z52
    omega
  have y70 : nE s .e70 = 0 := by
    clear * - b70 hse
    omega
  have hst : s.sh.sem_turno = 1 := by
    clear * - h3 z36 z37 z38 z39 z40 z41 y70 y71
    omega
  have z35 : nL s .l35 = 0 := by
    clear * - a35 hst
    omega
  have y69 : nE s .e69 = 0 := by
    clear * - b69 hst
    omega
  clear h1 h2 h3 h4 h5 h6 h7 h8 h9 h10 h11 h12 h13 a35 a36 a39 a49 a55 b69 b70 b82
  simp only [nL, nE] at *
  constructor
  · intro p hp
    have := List.count_pos_iff.mpr hp
    cases p <;> first | rfl | omega
  · intro p hp
    have := List.count_pos_iff.mpr hp
    cases p <;> first | rfl | omega

/-- C10. For every number of lectores and escritores, every reachable state in
which some thread has not returned has a thread that can take a step: no
reachable state has all its unfinished threads blocked on `sem_turno`,
`sem_escritura`, `mutex` or `mutex_metricas`. -/
theorem sin_interbloqueo (R K : Nat) (s : State) (hr : Reachable R K s)
    (hn : ¬ allReturned s) : ∃ t s', step s t = some s' := by
  by_contra hcon
  push_neg at hcon
  exact hn (stuck_allReturned (inv_reachable hr) hcon)

/-- C10 witness: at the start of a run with one lector and one escritor. -/
theorem sin_interbloqueo_witness : ∃ t s', step (init 1 1) t = some s' :=
  sin_interbloqueo 1 1 (init 1 1) Reachable.init (by decide)

/-! ## The gate while an escritor waits for `sem_escritura` -/

/-- C9, counterexample. With two lectores and one escritor there is a reachable
state in which the escritor is blocked at `sem_wait(&sem_escritura)` (line 70)
while it holds `sem_turno`: the semaphore is 0, the escritor cannot move, and a
lector that arrives at line 35 cannot move either. -/
theorem escritor_bloqueado_con_turno :
    ¬ (∀ (R K : Nat) (s : State) (j : Nat), Reachable R K s → esperaEscritura s j →
        ¬ tieneTurno s j) := by
  intro h
  have hr : Reachable 2 1 estadoEscritorBloqueado :=
    reachable_of_run
      [.lector 0, .lector 0, .lector 0, .lector 0, .lector 0, .lector 0, .lector 0, .lector 0,
        .escritor 0, .escritor 0, .lector 1]
      Reachable.init (by decide)
  exact h 2 1 estadoEscritorBloqueado 0 hr ⟨rfl, rfl⟩ (Or.inl rfl)

/-- C9, amended. In every reachable state at most one thread is between its
`sem_wait(&sem_turno)` and its `sem_post(&sem_turno)`, and `sem_turno` is 0
exactly then; an escritor at line 70, where it acquires `sem_escritura`, is
that thread: it holds `sem_turno`, `sem_turno = 0`, no lector is between
lines 35 and 41, and no other escritor is between lines 69 and 71. -/
theorem turno_retenido (R K : Nat) (s : State) (hr : Reachable R K s) :
    s.sh.sem_turno
        + (nL s .l36 + nL s .l37 + nL s .l38 + nL s .l39 + nL s .l40 + nL s .l41)
        + (nE s .e70 + nE s .e71) = 1
    ∧ ∀ j, s.escr[j]? = some .e70 →
        tieneTurno s j ∧ s.sh.sem_turno = 0
        ∧ nL s .l36 + nL s .l37 + nL s .l38 + nL s .l39 + nL s .l40 + nL s .l41 = 0
        ∧ nE s .e70 = 1 ∧ nE s .e71 = 0 := by
  have hI := inv_reachable hr
  refine ⟨hI.turno, ?_⟩
  intro j hj
  have hpos : 1 ≤ nE s .e70 := count_pos_of_get s.escr j .e70 hj
  have ht := hI.turno
  refine ⟨Or.inl hj, ?_, ?_, ?_, ?_⟩ <;> omega

/-- C9 witness: the state in which the escritor waits at line 70 behind a lector. -/
theorem turno_retenido_witness :
    tieneTurno estadoEscritorBloqueado 0 ∧ estadoEscritorBloqueado.sh.sem_turno = 0
    ∧ step estadoEscritorBloqueado (.escritor 0) = none
    ∧ step estadoEscritorBloqueado (.lector 1) = none :=
  ⟨((turno_retenido 2 1 estadoEscritorBloqueado
      (reachable_of_run
        [.lector 0, .lector 0, .lector 0, .lector 0, .lector 0, .lector 0, .lector 0, .lector 0,
          .escritor 0, .escritor 0, .lector 1]
        Reachable.init (by decide))).2 0 rfl).1, rfl, rfl, rfl⟩

/-! ## The count of active lectores -/

theorem two_le_count {α : Type} [DecidableEq α] (l : List α) (i k : Nat) (a : α)
    (hik : i ≠ k) (hi : l[i]? = some a) (hk : l[k]? = some a) : 2 ≤ l.count a := by
  induction l generalizing i k with
  | nil => simp at hi
  | cons x xs ih =>
    cases i with
    | zero =>
      cases k with
      | zero => exact absurd rfl hik
      | succ k =>
        simp at hi hk
        subst hi
        have := count_pos_of_get xs k x hk
        rw [List.count_cons_self]
        omega
    | succ i =>
      cases k with
      | zero =>
        simp at hi hk
        subst hk
        have := count_pos_of_get xs i x hi
        rw [List.count_cons_self]
        omega
      | succ k =>
        simp at hi hk
        have := ih i k (by omega) hi hk
        have := List.count_le_count_cons (a := a) (b := x) (l := xs)
        omega

theorem escritorStep_activos (g g' : Shared) (pc pc' : EPc)
    (h : escritorStep g pc = some (g', pc')) : g'.lectores_activos = g.lectores_activos := by
  cases pc <;> simp [escritorStep] at h <;>
    (first | obtain ⟨rfl, _⟩ := h | obtain ⟨_, rfl, _⟩ := h) <;> rfl

theorem lectorStep_activos (g g' : Shared) (pc pc' : LPc)
    (h : lectorStep g pc = some (g', pc')) (h37 : pc ≠ .l37) (h50 : pc ≠ .l50) :
    g'.lectores_activos = g.lectores_activos := by
  cases pc <;> simp [lectorStep] at h <;>
    first
    | exact absurd rfl h37
    | exact absurd rfl h50
    | (obtain ⟨rfl, _⟩ := h; rfl)
    | (obtain ⟨_, rfl, _⟩ := h; rfl)

theorem mutex_unico {R K : Nat} {s : State} (hI : Inv R K s) (i k : Nat) (p q : LPc)
    (hik : i ≠ k) (hi : s.lect[i]? = some p) (hk : s.lect[k]? = some q)
    (hp : enMutex p = true) (hq : enMutex q = true) : False := by
  have hm := hI.mutexN
  have hmu := Bool.toNat_le s.sh.mutex
  have h1 := count_pos_of_get s.lect i p hi
  have h2 := count_pos_of_get s.lect k q hk
  by_cases hpq : p = q
  · subst hpq
    have h3 := two_le_count s.lect i k p hik hi hk
    clear hI hi hk hq h1 h2
    simp only [nL] at hm
    cases p <;> first | exact absurd hp (by decide) | omega
  · clear hI hi hk
    simp only [nL] at hm
    cases p <;> first | exact absurd hp (by decide) | skip
    all_goals
      cases q <;> first | exact absurd hq (by decide) | exact absurd rfl hpq | omega

/-- A lector that holds `mutex` is not disturbed by the other threads: they
change neither its control point nor `lectores_activos`. -/
theorem frame_step {R K : Nat} {s s' : State} (hI : Inv R K s) (i : Nat) (p : LPc)
    (hi : s.lect[i]? = some p) (hp : enMutex p = true) (t : Hilo) (ht : t ≠ .lector i)
    (hs : step s t = some s') :
    s'.lect[i]? = some p ∧ s'.sh.lectores_activos = s.sh.lectores_activos := by
  cases t with
  | escritor j =>
    obtain ⟨pc, g, pc', _, hl, rfl⟩ := step_escritor_some hs
    exact ⟨hi, escritorStep_activos _ _ _ _ hl⟩
  | lector k =>
    have hik : i ≠ k := fun h => ht (by rw [h])
    obtain ⟨pc, g, pc', hk, hl, rfl⟩ := step_lector_some hs
    refine ⟨by simpa [List.getElem?_set_ne (Ne.symm hik)] using hi, ?_⟩
    apply lectorStep_activos _ _ _ _ hl
    · rintro rfl
      exact mutex_unico hI i k p .l37 hik hi hk hp rfl
    · rintro rfl
      exact mutex_unico hI i k p .l50 hik hi hk hp rfl

theorem frame_run {R K : Nat} (i : Nat) (p : LPc) (hp : enMutex p = true) (σ : List Hilo)
    (hσ : Hilo.lector i ∉ σ) (s s' : State) (hr : Reachable R K s)
    (hi : s.lect[i]? = some p) (hs : run s σ = some s') :
    Reachable R K s' ∧ s'.lect[i]? = some p
      ∧ s'.sh.lectores_activos = s.sh.lectores_activos := by
  induction σ generalizing s with
  | nil =>
    simp [run] at hs
    subst hs
    exact ⟨hr, hi, rfl⟩
  | cons t ts ih =>
    simp only [run] at hs
    cases hst : step s t with
    | none => simp [hst] at hs
    | some s1 =>
      simp only [hst] at hs
      have ht : t ≠ .lector i := fun h => hσ (by simp [h])
      have hts : Hilo.lector i ∉ ts := fun h => hσ (by simp [h])
      obtain ⟨h1, h2⟩ := frame_step (inv_reachable hr) i p hi hp t ht hst
      obtain ⟨h3, h4, h5⟩ := ih hts s1 (Reachable.step t hr hst) h1 hs
      exact ⟨h3, h4, h5.trans h2⟩

theorem lectorStep_sem_escritura (g g' : Shared) (pc pc' : LPc)
    (h : lectorStep g pc = some (g', pc')) :
    (g'.sem_escritura + 1 = g.sem_escritura ↔ pc = .l39)
    ∧ (g'.sem_escritura = g.sem_escritura + 1 ↔ pc = .l52) := by
  cases pc <;> simp [lectorStep] at h <;>
    first
    | (obtain ⟨rfl, _⟩ := h; constructor <;> simp <;> omega)
    | (obtain ⟨hg, rfl, _⟩ := h; constructor <;> simp <;> omega)

/-- C8. In every reachable state `lectores_activos` is non-negative and is the
number of lectores that have executed `lectores_activos++` (line 37) and not
yet `lectores_activos--` (line 50).  A lector that increments the count goes on
to `sem_wait(&sem_escritura)` (line 39) exactly when the count was 0 before its
increment, whatever the other threads do in between; a lector that decrements
the count goes on to `sem_post(&sem_escritura)` (line 52) exactly when the count
was 1 before its decrement; and a lector changes `sem_escritura` only at those
two lines. -/
theorem lectores_activos_cuenta (R K : Nat) (s : State) (hr : Reachable R K s) :
    0 ≤ s.sh.lectores_activos
    ∧ s.sh.lectores_activos
        = ((nL s .l38 + nL s .l39 + nL s .l40 + nL s .l41 + nL s .l43 + nL s .l49 + nL s .l50
            : Nat) : Int)
    ∧ (∀ i σ s2, s.lect[i]? = some .l37 → Hilo.lector i ∉ σ →
        run s (.lector i :: σ) = some s2 →
        s2.sh.lectores_activos = s.sh.lectores_activos + 1 ∧ s2.lect[i]? = some .l38
        ∧ ∃ s3, step s2 (.lector i) = some s3 ∧ s3.sh = s2.sh
            ∧ s3.lect[i]? = some (if s.sh.lectores_activos = 0 then .l39 else .l40))
    ∧ (∀ i σ s2, s.lect[i]? = some .l50 → Hilo.lector i ∉ σ →
        run s (.lector i :: σ) = some s2 →
        s2.sh.lectores_activos = s.sh.lectores_activos - 1 ∧ s2.lect[i]? = some .l51
        ∧ ∃ s3, step s2 (.lector i) = some s3 ∧ s3.sh = s2.sh
            ∧ s3.lect[i]? = some (if s.sh.lectores_activos = 1 then .l52 else .l53))
    ∧ (∀ i s', step s (.lector i) = some s' →
        (s'.sh.sem_escritura + 1 = s.sh.sem_escritura ↔ s.lect[i]? = some .l39)
        ∧ (s'.sh.sem_escritura = s.sh.sem_escritura + 1 ↔ s.lect[i]? = some .l52)) := by
  have hI := inv_reachable hr
  refine ⟨by rw [hI.activos]; exact Int.natCast_nonneg _, hI.activos, ?_, ?_, ?_⟩
  · intro i σ s2 hi hσ hrun
    simp only [run] at hrun
    have hlen : i < s.lect.length := by
      by_contra hc
      simp [List.getElem?_eq_none (Nat.le_of_not_lt hc)] at hi
    have h1 : step s (.lector i)
        = some ⟨{ s.sh with lectores_activos := s.sh.lectores_activos + 1 },
            s.lect.set i .l38, s.escr⟩ := step_lector_of_get hi rfl
    rw [h1] at hrun
    have hi1 : (s.lect.set i LPc.l38)[i]? = some LPc.l38 := by
      simp [List.getElem?_set, hlen]
    obtain ⟨_, h3, h4⟩ := frame_run i .l38 rfl σ hσ _ s2 (Reachable.step _ hr h1) hi1 hrun
    refine ⟨h4, h3, ?_⟩
    have hlen2 : i < s2.lect.length := by
      by_contra hc
      simp [List.getElem?_eq_none (Nat.le_of_not_lt hc)] at h3
    refine ⟨_, step_lector_of_get h3 rfl, rfl, ?_⟩
    simp only [List.getElem?_set, hlen2, h4]
    simp
  · intro i σ s2 hi hσ hrun
    simp only [run] at hrun
    have hlen : i < s.lect.length := by
      by_contra hc
      simp [List.getElem?_eq_none (Nat.le_of_not_lt hc)] at hi
    have h1 : step s (.lector i)
        = some ⟨{ s.sh with lectores_activos := s.sh.lectores_activos - 1 },
            s.lect.set i .l51, s.escr⟩ := step_lector_of_get hi rfl
    rw [h1] at hrun
    have hi1 : (s.lect.set i LPc.l51)[i]? = some LPc.l51 := by
      simp [List.getElem?_set, hlen]
    obtain ⟨_, h3, h4⟩ := frame_run i .l51 rfl σ hσ _ s2 (Reachable.step _ hr h1) hi1 hrun
    refine ⟨h4, h3, ?_⟩
    have hlen2 : i < s2.lect.length := by
      by_contra hc
      simp [List.getElem?_eq_none (Nat.le_of_not_lt hc)] at h3
    refine ⟨_, step_lector_of_get h3 rfl, rfl, ?_⟩
    simp only [List.getElem?_set, hlen2, h4]
    have e : (s.sh.lectores_activos - 1 = 0) = (s.sh.lectores_activos = 1) := by
      apply propext
      constructor <;> intro h <;> omega
    simp [e]
  · intro i s' hs
    obtain ⟨pc, g, pc', hp, hl, rfl⟩ := step_lector_some hs
    have := lectorStep_sem_escritura _ _ _ _ hl
    simpa [hp] using this

/-- C8 witness: the only lector has locked `mutex` and is about to increment. -/
theorem lectores_activos_cuenta_witness :
    ∃ s3, step ⟨⟨1, 0, true, 1, 1, 0, false⟩, [.l38], []⟩ (.lector 0) = some s3
      ∧ s3.sh = (⟨1, 0, true, 1, 1, 0, false⟩ : Shared)
      ∧ s3.lect[0]? = some (if (0 : Int) = 0 then .l39 else .l40) :=
  ((lectores_activos_cuenta 1 0 ⟨⟨1, 0, true, 0, 1, 0, false⟩, [.l37], []⟩
      (reachable_of_run [.lector 0, .lector 0, .lector 0] Reachable.init (by decide))).2.2.1
    0 [] ⟨⟨1, 0, true, 1, 1, 0, false⟩, [.l38], []⟩ rfl (by simp) rfl).2.2

/-! ## Lectores admitted while an escritor waits -/

theorem run_append (s : State) (σ τ : List Hilo) :
    run s (σ ++ τ) = (run s σ).bind (fun s' => run s' τ) := by
  induction σ generalizing s with
  | nil => simp [run]
  | cons t ts ih =>
    simp only [List.cons_append, run]
    cases step s t with
    | none => simp
    | some s1 => simp [ih]

theorem admitidos_append (j : Nat) (s s' : State) (σ τ : List Hilo) (h : run s σ = some s') :
    admitidos j s (σ ++ τ) = admitidos j s σ + admitidos j s' τ := by
  induction σ generalizing s with
  | nil =>
    simp [run] at h
    subst h
    simp [admitidos]
  | cons t ts ih =>
    simp only [run] at h
    cases hst : step s t with
    | none => simp [hst] at h
    | some s1 =>
      simp only [hst] at h
      have e := ih s1 h
      rw [List.cons_append]
      simp only [admitidos, hst]
      rw [e]
      omega

theorem getElem?_mid {α : Type} (pre post : List α) (p : α) :
    (pre ++ p :: post)[pre.length]? = some p := by
  rw [List.getElem?_append_right (Nat.le_refl _)]
  simp

theorem set_mid {α : Type} (pre post : List α) (p q : α) :
    (pre ++ p :: post).set pre.length q = pre ++ q :: post := by
  induction pre with
  | nil => simp
  | cons x xs ih => simp [ih]

theorem step_lector_mid (g : Shared) (pre post : List LPc) (p : LPc) (E : List EPc) :
    step ⟨g, pre ++ p :: post, E⟩ (.lector pre.length)
      = match lectorStep g p with
        | none => none
        | some (g', p') => some ⟨g', pre ++ p' :: post, E⟩ := by
  simp only [step, getElem?_mid, set_mid]

theorem run_pasada (lb c : Int) (pre post : List LPc) (E : List EPc) :
    run ⟨⟨1, 1, false, 0, lb, c, false⟩, pre ++ .l31 :: post, E⟩ (pasada pre.length)
      = some ⟨⟨1, 1, false, 0, lb, c + 1, false⟩, pre ++ .l59 :: post, E⟩ := by
  simp [pasada, List.replicate, run, step_lector_mid, lectorStep]

theorem admite_mid (g : Shared) (pre post : List LPc) (p : LPc) (E : List EPc) :
    admite ⟨g, pre ++ p :: post, E⟩ (.lector pre.length) = decide (p = .l37) := by
  simp only [admite, getElem?_mid, Option.some.injEq]

theorem esperando_e69 (g : Shared) (l : List LPc) : esperando ⟨g, l, [.e69]⟩ 0 = true := by
  simp [esperando]

theorem admitidos_pasada (lb c : Int) (pre post : List LPc) :
    admitidos 0 ⟨⟨1, 1, false, 0, lb, c, false⟩, pre ++ .l31 :: post, [.e69]⟩ (pasada pre.length)
      = 1 := by
  simp [pasada, List.replicate, admitidos, step_lector_mid, lectorStep, esperando_e69, admite_mid]

theorem run_pasadas (m : Nat) (c : Int) (pre : List LPc) :
    run ⟨⟨1, 1, false, 0, 1, c, false⟩, pre ++ List.replicate m .l31, [.e69]⟩
        (pasadas pre.length m)
      = some ⟨⟨1, 1, false, 0, 1, c + m, false⟩, pre ++ List.replicate m .l59, [.e69]⟩
    ∧ admitidos 0 ⟨⟨1, 1, false, 0, 1, c, false⟩, pre ++ List.replicate m .l31, [.e69]⟩
        (pasadas pre.length m) = m := by
  induction m generalizing c pre with
  | zero => simp [pasadas, run, admitidos]
  | succ m ih =>
    have h1 := run_pasada 1 c pre (List.replicate m .l31) [.e69]
    have h2 := admitidos_pasada 1 c pre (List.replicate m .l31)
    obtain ⟨h3, h4⟩ := ih (c + 1) (pre ++ [.l59])
    simp only [List.append_assoc, List.singleton_append, List.length_append,
      List.length_singleton] at h3 h4
    simp only [pasadas, List.replicate_succ]
    constructor
    · rw [run_append, h1]
      simp only [Option.some_bind, h3]
      push_cast
      congr 3
      ring
    · rw [admitidos_append 0 _ _ _ _ h1, h2, h4]
      omega

theorem run_adelantamiento_inicio (B : Nat) :
    run (init (B + 1) 1) ([.lector 0, .lector 0, .escritor 0] ++ List.replicate 15 (.lector 0))
      = some ⟨⟨1, 1, false, 0, 1, 1, false⟩, [.l59] ++ List.replicate B .l31, [.e69]⟩
    ∧ admitidos 0 (init (B + 1) 1)
        ([.lector 0, .lector 0, .escritor 0] ++ List.replicate 15 (.lector 0)) = 1 := by
  constructor
  · simp [init, List.replicate, run, step, lectorStep, escritorStep]
  · simp [init, List.replicate, admitidos, step, lectorStep, escritorStep, esperando, admite]

/-- C3. The gate does not keep the order of arrival.  In the run with `B + 1`
lectores and one escritor, under the schedule `adelantamiento B`:
the escritor arrives at line 69 when lector 0 holds `sem_turno`, so that it
finds `sem_turno = 0` and cannot move, while the lectores `1`, ..., `B` are
still at line 31; then all `B + 1` lectores run to their return and the
escritor is still at line 69; `B + 1` lectores were admitted (line 37) while
it waited.  The comments of lines 10, 35 and 69 say that `sem_turno` keeps the
FIFO order. -/
theorem escritor_adelantado (B : Nat) :
    (∃ s1, run (init (B + 1) 1) [.lector 0, .lector 0, .escritor 0] = some s1
      ∧ s1.lect = .l36 :: List.replicate B .l31 ∧ s1.escr = [.e69]
      ∧ s1.sh.sem_turno = 0 ∧ step s1 (.escritor 0) = none)
    ∧ (∃ s2, run (init (B + 1) 1) (adelantamiento B) = some s2
      ∧ s2.lect = List.replicate (B + 1) .l59 ∧ s2.escr = [.e69])
    ∧ admitidos 0 (init (B + 1) 1) (adelantamiento B) = B + 1 := by
  obtain ⟨h1, h2⟩ := run_adelantamiento_inicio B
  obtain ⟨h3, h4⟩ := run_pasadas B 1 [.l59]
  simp only [List.length_singleton] at h3 h4
  refine ⟨?_, ?_, ?_⟩
  · refine ⟨⟨⟨1, 0, false, 0, 1, 0, false⟩, .l36 :: List.replicate B .l31, [.e69]⟩,
      ?_, rfl, rfl, rfl, ?_⟩
    · simp [init, List.replicate, run, step, lectorStep, escritorStep]
    · simp [step, escritorStep]
  · refine ⟨⟨⟨1, 1, false, 0, 1, 1 + (B : Int), false⟩,
      [.l59] ++ List.replicate B .l59, [.e69]⟩, ?_, ?_, rfl⟩
    · rw [adelantamiento, run_append, h1]
      exact h3
    · simp [List.replicate_succ]
  · rw [adelantamiento, admitidos_append 0 _ _ _ _ h1, h2, h4]
    omega

/-- The number of lectores admitted while an escritor waits at the gate has no
bound that is independent of the number of lectores. -/
theorem admisiones_no_acotadas :
    ¬ ∃ B : Nat, ∀ (R : Nat) (σ : List Hilo) (s : State),
        run (init R 1) σ = some s → admitidos 0 (init R 1) σ ≤ B := by
  rintro ⟨B, hB⟩
  obtain ⟨h1, h2⟩ := run_adelantamiento_inicio B
  obtain ⟨h3, h4⟩ := run_pasadas B 1 [.l59]
  simp only [List.length_singleton] at h3 h4
  have hrun : run (init (B + 1) 1) (adelantamiento B)
      = some ⟨⟨1, 1, false, 0, 1, 1 + (B : Int), false⟩,
          [.l59] ++ List.replicate B .l59, [.e69]⟩ := by
    rw [adelantamiento, run_append, h1]
    exact h3
  have hadm : admitidos 0 (init (B + 1) 1) (adelantamiento B) = B + 1 := by
    rw [adelantamiento, admitidos_append 0 _ _ _ _ h1, h2, h4]
    omega
  have := hB (B + 1) _ _ hrun
  omega

/-! ## The aggregate formulas -/

theorem foldl_add_eq (f : ℚ → ℚ) (l : List ℚ) (a : ℚ) :
    l.foldl (fun acc x => acc + f x) a = a + (l.map f).sum := by
  induction l generalizing a with
  | nil => simp
  | cons x xs ih =>
    simp only [List.foldl_cons, List.map_cons, List.sum_cons]
    rw [ih]
    ring

theorem suma_eq (t : List ℚ) : suma t = t.sum := by
  have := foldl_add_eq (fun x => x) t 0
  simpa [suma] using this

theorem suma_cuadrados_eq (t : List ℚ) : suma_cuadrados t = (t.map (fun x => x * x)).sum := by
  have := foldl_add_eq (fun x => x * x) t 0
  simpa [suma_cuadrados] using this

theorem sum_desviaciones (t : List ℚ) (μ : ℚ) :
    (t.map (fun x => (x - μ) ^ 2)).sum
      = (t.map (fun x => x * x)).sum - 2 * μ * t.sum + (t.length : ℚ) * μ ^ 2 := by
  induction t with
  | nil => simp
  | cons x xs ih =>
    simp only [List.map_cons, List.sum_cons, List.length_cons, ih]
    push_cast
    ring

theorem varianza_eq_poblacional (t : List ℚ) (ht : t ≠ []) :
    varianza t t.length
      = (t.map (fun x => (x - promedio_espera t t.length) ^ 2)).sum / (t.length : ℚ) := by
  have hN : (t.length : ℚ) ≠ 0 := by
    have : t.length ≠ 0 := fun h => ht (List.length_eq_zero.mp h)
    exact_mod_cast this
  rw [sum_desviaciones]
  simp only [varianza, promedio_espera, suma_eq, suma_cuadrados_eq, Int.cast_natCast]
  field_simp
  ring

/-- C5. For every non-empty list of `N` wait samples, as exact rationals, the
metrics of `main` are `promedio_espera = (sum of the samples) / N`,
`varianza = (sum of the squares) / N - promedio_espera ^ 2`, which is the
population variance `(1 / N) * sum of (sample - promedio_espera) ^ 2`,
`overhead = promedio_espera / N` and
`throughput = operaciones_completadas / duracion_total`; for the samples
0.1, 0.2, 0.3, 0.4 the mean is 1/4 and the variance is 1/80. -/
theorem formulas_agregadas (t : List ℚ) (ht : t ≠ []) (operaciones_completadas : Int)
    (duracion_total : ℚ) :
    promedio_espera t t.length = t.sum / (t.length : ℚ)
    ∧ varianza t t.length
        = (t.map (fun x => x * x)).sum / (t.length : ℚ) - promedio_espera t t.length ^ 2
    ∧ varianza t t.length
        = (1 / (t.length : ℚ)) * (t.map (fun x => (x - promedio_espera t t.length) ^ 2)).sum
    ∧ overhead t t.length = promedio_espera t t.length / (t.length : ℚ)
    ∧ throughput operaciones_completadas duracion_total
        = (operaciones_completadas : ℚ) / duracion_total
    ∧ promedio_espera [1 / 10, 2 / 10, 3 / 10, 4 / 10] 4 = 1 / 4
    ∧ varianza [1 / 10, 2 / 10, 3 / 10, 4 / 10] 4 = 1 / 80 := by
  refine ⟨?_, ?_, ?_, ?_, rfl, ?_, ?_⟩
  · simp [promedio_espera, suma_eq]
  · simp [varianza, suma_cuadrados_eq]
    ring
  · rw [varianza_eq_poblacional t ht]
    ring
  · simp [overhead]
  · norm_num [promedio_espera, suma]
  · norm_num [varianza, promedio_espera, suma, suma_cuadrados]

/-- C5 witness: the samples 0.1, 0.2, 0.3, 0.4. -/
theorem formulas_agregadas_witness :
    varianza [1 / 10, 2 / 10, 3 / 10, 4 / 10] ([1 / 10, 2 / 10, 3 / 10, 4 / 10] : List ℚ).length
      = (1 / (([1 / 10, 2 / 10, 3 / 10, 4 / 10] : List ℚ).length : ℚ))
        * (([1 / 10, 2 / 10, 3 / 10, 4 / 10] : List ℚ).map
            (fun x => (x - promedio_espera [1 / 10, 2 / 10, 3 / 10, 4 / 10]
              ([1 / 10, 2 / 10, 3 / 10, 4 / 10] : List ℚ).length) ^ 2)).sum :=
  (formulas_agregadas [1 / 10, 2 / 10, 3 / 10, 4 / 10] (by simp) 4 2).2.2.1

/-! ## The sign of `varianza` -/

theorem Doble.toRat_nonneg_iff (a : Doble) : 0 ≤ a.toRat ↔ 0 ≤ a.m := by
  have h2 : (0 : ℚ) < (2 : ℚ) ^ a.e := zpow_pos (by norm_num) _
  rw [Doble.toRat, mul_nonneg_iff_of_pos_right h2]
  exact_mod_cast Iff.rfl

/-- The model reproduces the binary64 results `0.1 + 0.1 + 0.1 =
0x1.3333333333334p-2`, `0.1 * 0.1 = 0x1.47ae147ae147cp-7` and
`(0.1 + 0.1 + 0.1) / 3 = 0x1.999999999999bp-4`. -/
theorem doble_ejemplos :
    (unDecimo.add unDecimo).add unDecimo = ⟨5404319552844596, -54⟩
    ∧ unDecimo.mul unDecimo = ⟨5764607523034236, -59⟩
    ∧ ((unDecimo.add unDecimo).add unDecimo).div (Doble.ofInt 3) = ⟨7205759403792795, -56⟩ := by
  set_option maxRecDepth 100000 in decide

set_option maxRecDepth 100000 in
theorem varianzaDoble_unDecimo :
    varianzaDoble [unDecimo, unDecimo, unDecimo] 3 = ⟨-4503599627370496, -111⟩ := by
  decide

/-- C6. In the binary64 arithmetic of the program the value `varianza` that
line 143 passes to `sqrt` can be negative: for three wait samples all equal to
the `double` 0.1 lines 135-142 compute `-2 ^ 52 * 2 ^ (-111) = -2 ^ (-59)`.
Nothing between line 142 and the call of `sqrt` guards against it. -/
theorem varianza_doble_negativa :
    varianzaDoble [unDecimo, unDecimo, unDecimo] 3 = ⟨-4503599627370496, -111⟩
    ∧ (varianzaDoble [unDecimo, unDecimo, unDecimo] 3).toRat < 0
    ∧ ¬ ∀ t : List Doble, t ≠ [] → 0 ≤ (varianzaDoble t t.length).toRat := by
  have hneg : ¬ 0 ≤ (varianzaDoble [unDecimo, unDecimo, unDecimo] 3).toRat := by
    rw [Doble.toRat_nonneg_iff, varianzaDoble_unDecimo]
    decide
  refine ⟨varianzaDoble_unDecimo, lt_of_not_ge hneg, ?_⟩
  intro h
  exact hneg (h [unDecimo, unDecimo, unDecimo] (by simp))

/-- In exact arithmetic the value of line 142 is not negative for a non-empty
list of samples: a negative value in the program comes from rounding alone. -/
theorem varianza_exacta_no_negativa (t : List ℚ) (ht : t ≠ []) :
    0 ≤ varianza t t.length := by
  rw [varianza_eq_poblacional t ht]
  apply div_nonneg
  · apply List.sum_nonneg
    intro x hx
    obtain ⟨y, _, rfl⟩ := List.mem_map.mp hx
    exact sq_nonneg _
  · exact Nat.cast_nonneg _

/-! ## `main` and the thread counts -/

theorem main_en_rango (capacidad : Nat) (n_lectores n_escritores : Int)
    (hl : 0 ≤ n_lectores) (he : 0 ≤ n_escritores)
    (hmax : n_lectores + n_escritores ≤ INT_MAX)
    (hcap : n_lectores + n_escritores ≤ (capacidad : Int)) :
    main capacidad n_lectores n_escritores
      = .termina
        ([.malloc (8 * total_hilos n_lectores n_escritores), .init_sincronizacion]
          ++ (List.range n_lectores.toNat).map
              (fun (i : Nat) => Evento.crear_lector ((i : Int) + 1))
          ++ (List.range n_escritores.toNat).map
              (fun (i : Nat) => Evento.crear_escritor (n_lectores + (i : Int) + 1))
          ++ (List.range n_lectores.toNat).map Evento.join_lector
          ++ (List.range n_escritores.toNat).map Evento.join_escritor
          ++ (List.range (total_hilos n_lectores n_escritores).toNat).map Evento.leer_tiempo
          ++ [.dividir_por (total_hilos n_lectores n_escritores),
              .dividir_por (total_hilos n_lectores n_escritores),
              .dividir_por (total_hilos n_lectores n_escritores), .destruir, .retorno 0]) := by
  rw [main, if_pos ⟨hl, he, hmax, hcap⟩]

/-- For a negative count, or a sum beyond the range of `int`, the run of `main`
is not defined, whatever the environment can hold. -/
theorem main_indefinido (capacidad : Nat) (n_lectores n_escritores : Int)
    (h : n_lectores < 0 ∨ n_escritores < 0 ∨ INT_MAX < n_lectores + n_escritores) :
    main capacidad n_lectores n_escritores = .indefinido := by
  rw [main, if_neg]
  rintro ⟨h1, h2, h3, _⟩
  omega

/-- C4, counterexample. Whatever the environment can hold, for the input (0, 0)
`main` does not end with a configuration error: the run is defined, it returns
0, and it divides by `total_hilos = 0`. -/
theorem main_cero_hilos_sin_error :
    ¬ ∃ capacidad : Nat, ∀ n_lectores n_escritores : Int,
        (n_lectores < 0 ∨ n_escritores < 0 ∨ n_lectores + n_escritores = 0) →
        terminaConError (main capacidad n_lectores n_escritores)
        ∧ ∀ ev ∈ (main capacidad n_lectores n_escritores).eventos,
            ev.esCreacion = false ∧ ev.esLectura = false ∧ ev.esDivision = false := by
  rintro ⟨capacidad, h⟩
  obtain ⟨_, h2⟩ := h 0 0 (Or.inr (Or.inr rfl))
  rw [main_en_rango capacidad 0 0 (le_refl _) (le_refl _) (by decide) (by simp)] at h2
  have := (h2 (.dividir_por 0) (by simp [Resultado.eventos, total_hilos])).2.2
  exact absurd this (by decide)

/-- C4, amended. `main` does not validate the two counts.  For every pair of
counts that are not negative and whose sum is within the range of `int` and
within what the process can hold, the run returns 0, never a configuration
error, it creates `n_lectores + n_escritores` threads, reads that many wait
samples and divides by `total_hilos = n_lectores + n_escritores`; so when both
counts are 0 no thread is created and no wait sample is indexed, but the
aggregates are still computed, with divisor 0. -/
theorem main_sin_validacion (capacidad : Nat) (n_lectores n_escritores : Int)
    (hl : 0 ≤ n_lectores) (he : 0 ≤ n_escritores)
    (hmax : n_lectores + n_escritores ≤ INT_MAX)
    (hcap : n_lectores + n_escritores ≤ (capacidad : Int)) :
    ∃ tr, main capacidad n_lectores n_escritores = .termina tr
      ∧ tr.getLast? = some (.retorno 0)
      ∧ ¬ terminaConError (main capacidad n_lectores n_escritores)
      ∧ ((tr.filter Evento.esCreacion).length : Int) = n_lectores + n_escritores
      ∧ ((tr.filter Evento.esLectura).length : Int) = n_lectores + n_escritores
      ∧ Evento.dividir_por (n_lectores + n_escritores) ∈ tr
      ∧ (n_lectores + n_escritores = 0 →
          (∀ ev ∈ tr, ev.esCreacion = false ∧ ev.esLectura = false)
          ∧ Evento.dividir_por 0 ∈ tr) := by
  have hmain := main_en_rango capacidad n_lectores n_escritores hl he hmax hcap
  refine ⟨_, hmain, ?_, ?_, ?_, ?_, ?_, ?_⟩
  · rw [List.getLast?_append]
    rfl
  · rw [hmain]
    rintro ⟨c, hc, h⟩
    rw [List.getLast?_append] at h
    simp at h
    exact hc h.symm
  · simp [List.filter_append, List.filter_map, Evento.esCreacion, Function.comp_def]
    omega
  · simp [List.filter_append, List.filter_map, Evento.esLectura, Function.comp_def,
      total_hilos]
    omega
  · simp [total_hilos]
  · intro h0
    have hl0 : n_lectores = 0 := by omega
    have he0 : n_escritores = 0 := by omega
    subst hl0 he0
    simp [total_hilos, Evento.esCreacion, Evento.esLectura]

/-- C4 witness: two lectores and one escritor, in a process that can hold 1000
threads. -/
theorem main_sin_validacion_witness :
    ∃ tr, main 1000 2 1 = .termina tr
      ∧ tr.getLast? = some (.retorno 0)
      ∧ ¬ terminaConError (main 1000 2 1)
      ∧ ((tr.filter Evento.esCreacion).length : Int) = 2 + 1
      ∧ ((tr.filter Evento.esLectura).length : Int) = 2 + 1
      ∧ Evento.dividir_por (2 + 1) ∈ tr
      ∧ ((2 : Int) + 1 = 0 →
          (∀ ev ∈ tr, ev.esCreacion = false ∧ ev.esLectura = false)
          ∧ Evento.dividir_por 0 ∈ tr) :=
  main_sin_validacion 1000 2 1 (by decide) (by decide) (by decide) (by decide)

end LectoresEscritores
